import Mathlib

/-!
Verification development for the self-learning typo-correction engine
(`flow-core/src/learning.rs`).

The Rust code is shallowly embedded: tokens are `String`s, the f32/f64
similarity and confidence values are modelled exactly by `ℚ`, the
`HashMap` correction cache by an association list, and the persistence
collaborator (`crate::storage`, outside the embedded sources) by an
explicit state value.  Rust's Unicode-aware character classes
(`char::is_uppercase`, `str::to_lowercase`, ...) are modelled by their
ASCII restrictions (`Char.isUpper`, `Char.toLower`, ...), with which they
agree on every ASCII input; all concrete inputs in this development are
ASCII.
-/

/-! ## Constants from `learning.rs` -/

/-- `MIN_SIMILARITY: f64 = 0.7` — minimum similarity threshold for
considering a word pair as a typo correction. -/
def MIN_SIMILARITY : ℚ := 7/10

/-- `MIN_ALIGNMENT_SIMILARITY: f64 = 0.5` — minimum similarity for word
alignment. -/
def MIN_ALIGNMENT_SIMILARITY : ℚ := 1/2

/-- `MIN_AUTO_APPLY_CONFIDENCE: f32 = 0.55` — minimum confidence to
auto-apply a correction. -/
def MIN_AUTO_APPLY_CONFIDENCE : ℚ := 11/20

/-- `MAX_LENGTH_DIFF: usize = 1` — maximum word length difference to
consider a correction. -/
def MAX_LENGTH_DIFF : Nat := 1

/-! ## String helpers used by `learning.rs`

`rust_is_whitespace` lists the Unicode `White_Space` code points that
Rust's `char::is_whitespace` recognises, `split_whitespace` models
`str::split_whitespace` (whitespace-separated, non-empty tokens), and
`to_lowercase` / `eq_ignore_ascii_case` model the corresponding `str`
methods (lowercasing restricted to ASCII as explained above). -/

def rust_is_whitespace (c : Char) : Bool :=
  (decide (9 ≤ c.toNat) && decide (c.toNat ≤ 13)) || c.toNat == 32 ||
    c.toNat == 0x85 || c.toNat == 0xA0 || c.toNat == 0x1680 ||
    (decide (0x2000 ≤ c.toNat) && decide (c.toNat ≤ 0x200A)) ||
    c.toNat == 0x2028 || c.toNat == 0x2029 || c.toNat == 0x202F ||
    c.toNat == 0x205F || c.toNat == 0x3000

def split_whitespace_aux : List Char → List Char → List String
  | [], [] => []
  | [], cur => [String.mk cur.reverse]
  | c :: cs, cur =>
    if rust_is_whitespace c then
      match cur with
      | [] => split_whitespace_aux cs []
      | _ :: _ => String.mk cur.reverse :: split_whitespace_aux cs []
    else split_whitespace_aux cs (c :: cur)

def split_whitespace (s : String) : List String :=
  split_whitespace_aux s.data []

/-- Model of `str::to_lowercase` (ASCII range; agrees with Rust on ASCII
input). -/
def to_lowercase (s : String) : String :=
  String.mk (s.data.map Char.toLower)

def ascii_lower (c : Char) : Char :=
  if 'A' ≤ c && c ≤ 'Z' then Char.ofNat (c.toNat + 32) else c

/-- Model of `str::eq_ignore_ascii_case`. -/
def eq_ignore_ascii_case_list : List Char → List Char → Bool
  | [], [] => true
  | a :: as1, b :: bs1 => (ascii_lower a == ascii_lower b) && eq_ignore_ascii_case_list as1 bs1
  | _, _ => false

def eq_ignore_ascii_case (a b : String) : Bool :=
  eq_ignore_ascii_case_list a.data b.data

/-- `(orig.len() as isize - edit.len() as isize).unsigned_abs()` — the
byte-length difference used by the max-length-difference filter. -/
def len_diff (a b : String) : Nat :=
  ((a.utf8ByteSize : Int) - (b.utf8ByteSize : Int)).natAbs

/-! ## Jaro-Winkler similarity (the `strsim` crate)

`learning.rs` scores every token pair with `strsim::jaro_winkler`.  The
embedding follows `strsim`'s `generic_jaro` / `generic_jaro_winkler`:
a flag-based matching pass bounded by the search range, a transposition
count over the matched subsequences, and an unbounded common-prefix bonus
with the final value capped at 1. -/

/-- First index `j` with `minB ≤ j < maxB` whose character equals `a_elem`
and is not yet flagged (the inner loop of `generic_jaro`'s matching pass). -/
def find_match_idx (a_elem : Char) : List (Char × Bool) → Nat → Nat → Nat → Option Nat
  | [], _, _, _ => none
  | (bc, flag) :: rest, j, minB, maxB =>
    if maxB ≤ j then none
    else if minB ≤ j && (a_elem == bc) && !flag then some j
    else find_match_idx a_elem rest (j + 1) minB maxB

def set_flag : List (Char × Bool) → Nat → List (Char × Bool)
  | [], _ => []
  | (c, _) :: rest, 0 => (c, true) :: rest
  | cb :: rest, Nat.succ j => cb :: set_flag rest j

/-- The matching pass of `generic_jaro`: walks the characters of `a`
(index `i`), greedily claiming the first unflagged matching character of
`b` inside the search window.  Returns the per-position flags of `a`, the
final flagged `b`, and the number of matches. -/
def jaro_match_loop (search_range bLen : Nat) :
    List Char → Nat → List (Char × Bool) → List Bool × List (Char × Bool) × Nat
  | [], _, bf => ([], bf, 0)
  | ac :: rest, i, bf =>
    let minB := if search_range < i then i - search_range else 0
    let maxB := min bLen (i + search_range + 1)
    match find_match_idx ac bf 0 minB maxB with
    | some j =>
      let r := jaro_match_loop search_range bLen rest (i + 1) (set_flag bf j)
      (true :: r.1, r.2.1, r.2.2 + 1)
    | none =>
      let r := jaro_match_loop search_range bLen rest (i + 1) bf
      (false :: r.1, r.2.1, r.2.2)

/-- Characters of `a` whose flag is set, in order. -/
def matched_chars : List Char → List Bool → List Char
  | c :: cs, true :: fs => c :: matched_chars cs fs
  | _ :: cs, false :: fs => matched_chars cs fs
  | _, _ => []

/-- Number of positions at which the two matched subsequences disagree
(twice the transposition count). -/
def count_mismatch : List Char → List Char → Nat
  | a :: as1, b :: bs1 => (if a = b then 0 else 1) + count_mismatch as1 bs1
  | _, _ => 0

/-- `strsim::generic_jaro` on character lists. -/
def jaro (a b : List Char) : ℚ :=
  let aLen := a.length
  let bLen := b.length
  if aLen = 0 ∧ bLen = 0 then 1
  else if aLen = 0 ∨ bLen = 0 then 0
  else
    let search_range := max aLen bLen / 2 - 1
    let r := jaro_match_loop search_range bLen a 0 (b.map (fun c => (c, false)))
    let nmatches := r.2.2
    if nmatches = 0 then 0
    else
      let a_matched := matched_chars a r.1
      let b_matched := (r.2.1.filter (fun p => p.2)).map (fun p => p.1)
      let transpositions := count_mismatch a_matched b_matched / 2
      ((nmatches : ℚ) / aLen + (nmatches : ℚ) / bLen
        + ((nmatches - transpositions : Nat) : ℚ) / nmatches) / 3

def common_prefix_len : List Char → List Char → Nat
  | a :: as1, b :: bs1 => if a = b then 1 + common_prefix_len as1 bs1 else 0
  | _, _ => 0

/-- `strsim::jaro_winkler`: the Jaro score plus an (unbounded) common
prefix bonus, capped at 1. -/
def jaro_winkler (a b : String) : ℚ :=
  let sim := jaro a.data b.data
  min (sim + (1/10) * (common_prefix_len a.data b.data : ℚ) * (1 - sim)) 1

/-! ## Word alignment (`align_words`)

The Rust function is a two-cursor while loop; each iteration advances at
least one cursor, so the loop runs at most `original.len() + edited.len()`
times.  The embedding makes that bound explicit as structural fuel:
`align_words` hands `align_aux` exactly that much fuel, and
`align_aux_fuel_succ` below shows any sufficient fuel computes the same
result. -/

/-- `skip_orig = has_next_orig && jaro_winkler(original[orig_idx + 1], edit) > sim`. -/
def skip_orig_flag (rest : List String) (edit : String) (sim : ℚ) : Bool :=
  match rest with
  | [] => false
  | o2 :: _ => decide (sim < jaro_winkler o2 edit)

/-- `skip_edit = has_next_edit && jaro_winkler(orig, edited[edit_idx + 1]) > sim`. -/
def skip_edit_flag (rest : List String) (orig : String) (sim : ℚ) : Bool :=
  match rest with
  | [] => false
  | e2 :: _ => decide (sim < jaro_winkler orig e2)

/-- The while loop of `align_words`.  The cursors are represented by the
unconsumed suffixes of the two token lists. -/
def align_aux : Nat → List String → List String → List (String × String)
  | 0, _, _ => []
  | Nat.succ _, [], _ => []
  | Nat.succ _, _, [] => []
  | Nat.succ fuel, o :: os, e :: es =>
    if eq_ignore_ascii_case o e then (o, e) :: align_aux fuel os es
    else
      let sim := jaro_winkler o e
      if MIN_ALIGNMENT_SIMILARITY ≤ sim then (o, e) :: align_aux fuel os es
      else
        match skip_orig_flag os e sim, skip_edit_flag es o sim with
        | true, false => align_aux fuel os (e :: es)
        | false, true => align_aux fuel (o :: os) es
        | _, _ => align_aux fuel os es

/-- `align_words` from `learning.rs`. -/
def align_words (original edited : List String) : List (String × String) :=
  if original.isEmpty || edited.isEmpty then []
  else align_aux (original.length + edited.length) original edited

/-! ## Data model -/

inductive CorrectionSource where
  | UserEdit
deriving DecidableEq

/-- The durable `Correction` record (`crate::types`, consumed by the
engine through persistence). -/
structure Correction where
  original : String
  corrected : String
  source : CorrectionSource
  occurrences : Nat
  confidence : ℚ
deriving DecidableEq

/-- Modelled from the spec: the occurrence → confidence mapping of
`Correction::update_confidence` (`crate::types`, not among the embedded
sources).  The spec (§4.3, §9) requires a concave, strictly increasing
function approaching 1, calibrated so that about three occurrences cross
the 0.55 auto-apply default; `n / (n + 2)` satisfies exactly that
(1 ↦ 1/3, 2 ↦ 1/2, 3 ↦ 3/5 ≥ 11/20). -/
def confidence_formula (occurrences : Nat) : ℚ :=
  (occurrences : ℚ) / (occurrences + 2)

/-- Modelled from the spec: `Correction::new` (`crate::types`, not among
the embedded sources) creates a first observation, `occurrences = 1`
(§4.3: "if not, it is created with `occurrences = 1`"). -/
def Correction.new (original corrected : String) (source : CorrectionSource) : Correction :=
  { original := original, corrected := corrected, source := source,
    occurrences := 1, confidence := 0 }

/-- `Correction::update_confidence`: recompute `confidence` from
`occurrences` (formula modelled from the spec, see `confidence_formula`). -/
def update_confidence (c : Correction) : Correction :=
  { c with confidence := confidence_formula c.occurrences }

/-- In-memory cache entry (`CachedCorrection` in `learning.rs`). -/
structure CachedCorrection where
  corrected : String
  confidence : ℚ
deriving DecidableEq

/-- A correction learned from user edits (`LearnedCorrection`). -/
structure LearnedCorrection where
  original : String
  corrected : String
  similarity : ℚ
deriving DecidableEq

/-- A correction applied to text (`AppliedCorrection`). -/
structure AppliedCorrection where
  original : String
  corrected : String
  confidence : ℚ
  position : Nat
deriving DecidableEq

inductive StorageError where
  | failure
deriving DecidableEq

/-- Modelled from the spec: the persistence collaborator
(`crate::storage`, not among the embedded sources).  §6: `saveCorrection`
is an idempotent upsert keyed by `(original, corrected)` that increments
the occurrence count; `failing` is the set of keys on which persistence
I/O fails, modelling a `StorageError`. -/
structure Storage where
  counts : List ((String × String) × Nat)
  failing : List (String × String)
deriving DecidableEq

def bump_count : List ((String × String) × Nat) → (String × String) → List ((String × String) × Nat)
  | [], k => [(k, 1)]
  | (k', n) :: rest, k => if k' = k then (k', n + 1) :: rest else (k', n) :: bump_count rest k

def lookup_count : List ((String × String) × Nat) → (String × String) → Option Nat
  | [], _ => none
  | (k, n) :: rest, key => if k = key then some n else lookup_count rest key

/-- Modelled from the spec: `Storage::save_correction` — upsert keyed by
`(original, corrected)`, incrementing the occurrence count, or a
`StorageError` on the configured failing keys.  Note that it receives the
record by immutable reference: the caller's local `Correction` value is
not changed by the call. -/
def save_correction (s : Storage) (c : Correction) : Except StorageError Storage :=
  if s.failing.contains (c.original, c.corrected) then Except.error StorageError.failure
  else Except.ok { s with counts := bump_count s.counts (c.original, c.corrected) }

/-- The correction cache: `HashMap<String, CachedCorrection>` modelled as
an association list with at most one binding per key. -/
abbrev Cache := List (String × CachedCorrection)

def cache_get : Cache → String → Option CachedCorrection
  | [], _ => none
  | (k, v) :: rest, key => if k = key then some v else cache_get rest key

def cache_contains : Cache → String → Bool
  | [], _ => false
  | (k, _) :: rest, key => if k = key then true else cache_contains rest key

def cache_insert : Cache → String → CachedCorrection → Cache
  | [], k, v => [(k, v)]
  | (k', v') :: rest, k, v =>
    if k' = k then (k, v) :: rest else (k', v') :: cache_insert rest k v

/-- `LearningEngine`: the correction cache plus the mutable minimum
auto-apply confidence. -/
structure LearningEngine where
  corrections : Cache
  min_confidence : ℚ
deriving DecidableEq

/-- `LearningEngine::new`. -/
def LearningEngine.new : LearningEngine :=
  { corrections := [], min_confidence := MIN_AUTO_APPLY_CONFIDENCE }

/-- `f32::clamp(0.0, 1.0)`. -/
def clamp01 (q : ℚ) : ℚ := min (max q 0) 1

/-- `LearningEngine::set_min_confidence`. -/
def set_min_confidence (en : LearningEngine) (confidence : ℚ) : LearningEngine :=
  { en with min_confidence := clamp01 confidence }

/-! ## learn_from_edit -/

/-- The `for (orig, edit) in pairs` loop of `learn_from_edit`, threading
the storage state and the correction cache, and producing the learned
list or the first storage error.  On an error the storage and cache
reflect exactly the pairs already processed (the Rust loop mutates them
in place and aborts with `?`). -/
def process_pairs (mc : ℚ) :
    List (String × String) → Storage → Cache →
      Storage × Cache × Except StorageError (List LearnedCorrection)
  | [], s, cache => (s, cache, Except.ok [])
  | (o, e) :: rest, s, cache =>
    if eq_ignore_ascii_case o e then process_pairs mc rest s cache
    else
      let similarity := jaro_winkler o e
      if MIN_SIMILARITY ≤ similarity then
        if MAX_LENGTH_DIFF < len_diff o e then process_pairs mc rest s cache
        else
          let corr := Correction.new (to_lowercase o) e CorrectionSource.UserEdit
          match save_correction s corr with
          | Except.error err => (s, cache, Except.error err)
          | Except.ok s2 =>
            let corr2 := update_confidence corr
            let cache2 :=
              if mc ≤ corr2.confidence then
                cache_insert cache corr2.original
                  { corrected := corr2.corrected, confidence := corr2.confidence }
              else cache
            match process_pairs mc rest s2 cache2 with
            | (s3, cache3, Except.ok ls) =>
              (s3, cache3, Except.ok
                ({ original := o, corrected := e, similarity := similarity } :: ls))
            | (s3, cache3, Except.error err) => (s3, cache3, Except.error err)
      else process_pairs mc rest s cache

/-- Whether a pair passes all three acceptance filters of
`learn_from_edit`: the tokens differ case-insensitively, similarity is at
least `MIN_SIMILARITY`, and the byte-length difference is at most
`MAX_LENGTH_DIFF`. -/
def accepted_pair (p : String × String) : Bool :=
  !eq_ignore_ascii_case p.1 p.2 && decide (MIN_SIMILARITY ≤ jaro_winkler p.1 p.2)
    && decide (len_diff p.1 p.2 ≤ MAX_LENGTH_DIFF)

def mk_learned (p : String × String) : LearnedCorrection :=
  { original := p.1, corrected := p.2, similarity := jaro_winkler p.1 p.2 }

/-- `LearningEngine::learn_from_edit`.  The returned triple is the final
storage state, the final cache (the engine's `corrections` after the
call), and the `Result` value. -/
def learn_from_edit (en : LearningEngine) (original edited : String) (storage : Storage) :
    Storage × Cache × Except StorageError (List LearnedCorrection) :=
  let original_words := split_whitespace original
  let edited_words := split_whitespace edited
  let pairs := align_words original_words edited_words
  process_pairs en.min_confidence pairs storage en.corrections

/-! ## match_case and apply_corrections -/

/-- `match_case` from `learning.rs` (Unicode case classes restricted to
ASCII, on which they agree with Rust's). -/
def match_case (corrected original : String) : String :=
  match original.data, corrected.data with
  | [], _ => corrected
  | _, [] => corrected
  | first_char :: rest, c0 :: cs =>
    if first_char.isUpper then
      if rest.all (fun c => !c.isAlpha || c.isLower) then
        String.mk (c0.toUpper :: cs.map Char.toLower)
      else if original.data.all (fun c => !c.isAlpha || c.isUpper) then
        String.mk (corrected.data.map Char.toUpper)
      else corrected
    else corrected

def first_char_upper (s : String) : Bool :=
  match s.data with
  | [] => false
  | c :: _ => c.isUpper

def rest_alpha_lower (s : String) : Bool :=
  match s.data with
  | [] => true
  | _ :: rest => rest.all (fun c => !c.isAlpha || c.isLower)

def all_alpha_upper (s : String) : Bool :=
  s.data.all (fun c => !c.isAlpha || c.isUpper)

def title_cased (s : String) : String :=
  match s.data with
  | [] => s
  | c :: cs => String.mk (c.toUpper :: cs.map Char.toLower)

/-- The case classification of claim C8 as amended: the "all caps" branch
additionally requires the original's first character to be uppercase
(written from the spec's words for comparison with `match_case`). -/
def match_case_spec_amended (corrected original : String) : String :=
  if original.data.isEmpty || corrected.data.isEmpty then corrected
  else if first_char_upper original && rest_alpha_lower original then
    title_cased corrected
  else if first_char_upper original && all_alpha_upper original then
    String.mk (corrected.data.map Char.toUpper)
  else corrected

/-- The per-token loop of `apply_corrections`: `i` is the enumeration
index, the result is the rewritten token list and the applied-correction
records in order. -/
def apply_words (cache : Cache) (mc : ℚ) : Nat → List String → List String × List AppliedCorrection
  | _, [] => ([], [])
  | i, w :: ws =>
    let rest := apply_words cache mc (i + 1) ws
    match cache_get cache (to_lowercase w) with
    | some cc =>
      if mc ≤ cc.confidence then
        let corrected := match_case cc.corrected w
        (corrected :: rest.1,
          { original := w, corrected := corrected, confidence := cc.confidence,
            position := i } :: rest.2)
      else (w :: rest.1, rest.2)
    | none => (w :: rest.1, rest.2)

/-- `LearningEngine::apply_corrections`. -/
def apply_corrections (en : LearningEngine) (text : String) : String × List AppliedCorrection :=
  if en.corrections.isEmpty then (text, [])
  else
    let words := split_whitespace text
    if words.isEmpty then (text, [])
    else
      let r := apply_words en.corrections en.min_confidence 0 words
      (String.intercalate " " r.1, r.2)

/-- `LearningEngine::has_correction`. -/
def has_correction (en : LearningEngine) (word : String) : Bool :=
  cache_contains en.corrections (to_lowercase word)

/-- `LearningEngine::get_correction`. -/
def get_correction (en : LearningEngine) (word : String) : Option String :=
  match cache_get en.corrections (to_lowercase word) with
  | some cc => if en.min_confidence ≤ cc.confidence then some cc.corrected else none
  | none => none

/-! ## Concrete states used by witnesses and counterexamples -/

/-- An engine whose cache holds `foo → bar` at confidence 0.5 while the
minimum confidence is 0.9 (the gating scenario of the spec's §8). -/
def engine_low_conf : LearningEngine :=
  { corrections := [("foo", { corrected := "bar", confidence := 1/2 })],
    min_confidence := 9/10 }

/-- An engine with a single low-confidence cache entry and the default
threshold. -/
def engine_teh : LearningEngine :=
  { corrections := [("teh", { corrected := "the", confidence := 1/3 })],
    min_confidence := MIN_AUTO_APPLY_CONFIDENCE }

/-- A storage state that has already observed `recieve → receive` twice. -/
def storage_two : Storage :=
  { counts := [(("recieve", "receive"), 2)], failing := [] }

/-- A storage state whose upsert fails on the key `(recieve, receive)`. -/
def storage_failing : Storage :=
  { counts := [], failing := [("recieve", "receive")] }

/-! ## Helper lemmas -/

theorem jw_teh_the : jaro_winkler "teh" "the" = 3/5 := by
  simp +decide [jaro_winkler, jaro, jaro_match_loop, find_match_idx, set_flag,
    matched_chars, count_mismatch, common_prefix_len]
  rw [min_def]
  norm_num

theorem jw_recieve_receive : jaro_winkler "recieve" "receive" = 203/210 := by
  simp +decide [jaro_winkler, jaro, jaro_match_loop, find_match_idx, set_flag,
    matched_chars, count_mismatch, common_prefix_len]
  rw [min_def]
  norm_num

theorem jw_hello_world : jaro_winkler "hello" "world" = 7/15 := by
  simp +decide [jaro_winkler, jaro, jaro_match_loop, find_match_idx, set_flag,
    matched_chars, count_mismatch, common_prefix_len]
  rw [min_def]
  norm_num

theorem align_aux_nil_left (f : Nat) (e : List String) : align_aux f [] e = [] := by
  cases f with
  | zero => rfl
  | succ f => cases e <;> rfl

theorem align_aux_nil_right (f : Nat) (o : List String) : align_aux f o [] = [] := by
  cases f with
  | zero => rfl
  | succ f => cases o <;> rfl

theorem align_aux_succ : ∀ (f : Nat) (o e : List String), o.length + e.length ≤ f →
    align_aux (f + 1) o e = align_aux f o e := by
  intro f
  induction f with
  | zero =>
    intro o e h
    have ho : o = [] := by
      cases o with
      | nil => rfl
      | cons a l => simp at h
    subst ho
    rw [align_aux_nil_left, align_aux_nil_left]
  | succ f ih =>
    intro o e h
    cases o with
    | nil => rw [align_aux_nil_left, align_aux_nil_left]
    | cons o os =>
      cases e with
      | nil => rw [align_aux_nil_right, align_aux_nil_right]
      | cons e es =>
        have hlen : os.length + es.length + 1 ≤ f := by
          simp only [List.length_cons] at h
          omega
        have hlen2 : os.length + es.length ≤ f := by omega
        have hlen3 : os.length + (es.length + 1) ≤ f := by omega
        have hlen4 : os.length + 1 + es.length ≤ f := by omega
        show align_aux (f + 1 + 1) (o :: os) (e :: es) = align_aux (f + 1) (o :: os) (e :: es)
        simp only [align_aux]
        by_cases h1 : eq_ignore_ascii_case o e = true
        · simp only [h1, if_true, ih os es hlen2]
        · simp only [eq_false_of_ne_true h1, if_false]
          by_cases h2 : MIN_ALIGNMENT_SIMILARITY ≤ jaro_winkler o e
          · simp only [h2, if_true, ih os es hlen2]
          · simp only [h2, if_false]
            cases hso : skip_orig_flag os e (jaro_winkler o e) <;>
              cases hse : skip_edit_flag es o (jaro_winkler o e)
            · simpa using ih os es hlen2
            · simpa using ih (o :: os) es (by simpa using hlen4)
            · simpa using ih os (e :: es) (by simpa using hlen3)
            · simpa using ih os es hlen2

/-- One forced-advance step of the alignment loop: under the conditions
of the final match arm, both cursors advance and no pair is emitted. -/
theorem align_aux_forced_step (f : Nat) (o e : String) (os es : List String)
    (h1 : eq_ignore_ascii_case o e = false)
    (h2 : ¬ MIN_ALIGNMENT_SIMILARITY ≤ jaro_winkler o e)
    (h3 : skip_orig_flag os e (jaro_winkler o e) =
      skip_edit_flag es o (jaro_winkler o e)) :
    align_aux (f + 1) (o :: os) (e :: es) = align_aux f os es := by
  simp only [align_aux, h1, Bool.false_eq_true, if_false, h2]
  cases hso : skip_orig_flag os e (jaro_winkler o e) <;>
    rw [hso] at h3 <;> rw [← h3]

/-! ## Claim C1 -/

/-- Claim C1, counterexample.  At `original = ["hello"]`,
`edited = ["world"]` the aligner reaches tokens that are not equal
case-insensitively, whose similarity 7/15 is below
`MIN_ALIGNMENT_SIMILARITY`, and for which no lookahead is available (both
skip flags agree) — the situation in which the claim says the current
tokens are force-paired and emitted.  `align_words` returns `[]`: the
pair `("hello", "world")` is not emitted. -/
theorem align_words_forced_pair_not_emitted_cex :
    eq_ignore_ascii_case "hello" "world" = false ∧
    jaro_winkler "hello" "world" < MIN_ALIGNMENT_SIMILARITY ∧
    skip_orig_flag [] "world" (jaro_winkler "hello" "world") =
      skip_edit_flag [] "hello" (jaro_winkler "hello" "world") ∧
    align_words ["hello"] ["world"] = [] := by
  have heq : eq_ignore_ascii_case "hello" "world" = false := by decide
  have hlt : jaro_winkler "hello" "world" < MIN_ALIGNMENT_SIMILARITY := by
    rw [jw_hello_world]
    norm_num [MIN_ALIGNMENT_SIMILARITY]
  refine ⟨heq, hlt, rfl, ?_⟩
  show align_aux (1 + 1) ["hello"] ["world"] = []
  rw [align_aux_forced_step 1 "hello" "world" [] [] heq (not_le.mpr hlt) rfl]
  rfl

/-- Claim C1, amended: whenever `align_words` reaches a position where the
current two tokens are not equal case-insensitively, their similarity is
below `MIN_ALIGNMENT_SIMILARITY`, and neither exactly one of the two
one-token lookaheads strictly improves on that similarity (the two skip
flags agree), the aligner advances both cursors WITHOUT emitting the
current two tokens as a pair: the result is exactly the alignment of the
two remainders. -/
theorem align_words_forced_advance_drops_pair (o e : String) (os es : List String)
    (h1 : eq_ignore_ascii_case o e = false)
    (h2 : jaro_winkler o e < MIN_ALIGNMENT_SIMILARITY)
    (h3 : skip_orig_flag os e (jaro_winkler o e) =
      skip_edit_flag es o (jaro_winkler o e)) :
    align_words (o :: os) (e :: es) = align_words os es := by
  rw [align_words, align_words]
  simp only [List.isEmpty_cons, Bool.or_self, Bool.false_eq_true, if_false,
    List.length_cons]
  have hstep : os.length + 1 + (es.length + 1) = (os.length + es.length + 1) + 1 := by omega
  rw [hstep, align_aux_forced_step _ _ _ _ _ h1 (not_le.mpr h2) h3,
    align_aux_succ (os.length + es.length) os es le_rfl]
  cases os with
  | nil => rw [align_aux_nil_left]; cases es <;> rfl
  | cons o2 os2 =>
    cases es with
    | nil => rw [align_aux_nil_right]; rfl
    | cons e2 es2 => rfl

/-- Claim C1, witness for the amended theorem at
`original = ["hello"]`, `edited = ["world"]`. -/
theorem align_words_forced_advance_drops_pair_witness :
    align_words ["hello"] ["world"] = align_words [] [] := by
  apply align_words_forced_advance_drops_pair
  · decide
  · rw [jw_hello_world]; norm_num [MIN_ALIGNMENT_SIMILARITY]
  · rfl

/-! ## Claim C9 -/

/-- Claim C9 (confirmed): aligning `["I","recieve","teh","mail"]` against
`["I","receive","the","mail"]` yields exactly 4 pairs, the 2nd being
`("recieve","receive")` and the 3rd `("teh","the")`. -/
theorem align_words_literal_law :
    align_words ["I", "recieve", "teh", "mail"] ["I", "receive", "the", "mail"] =
      [("I", "I"), ("recieve", "receive"), ("teh", "the"), ("mail", "mail")] := by
  have e1 : eq_ignore_ascii_case "I" "I" = true := by decide
  have e2 : eq_ignore_ascii_case "recieve" "receive" = false := by decide
  have e3 : eq_ignore_ascii_case "teh" "the" = false := by decide
  have e4 : eq_ignore_ascii_case "mail" "mail" = true := by decide
  have s2 : MIN_ALIGNMENT_SIMILARITY ≤ jaro_winkler "recieve" "receive" := by
    rw [jw_recieve_receive]; norm_num [MIN_ALIGNMENT_SIMILARITY]
  have s3 : MIN_ALIGNMENT_SIMILARITY ≤ jaro_winkler "teh" "the" := by
    rw [jw_teh_the]; norm_num [MIN_ALIGNMENT_SIMILARITY]
  rw [align_words]
  simp only [List.isEmpty_cons, Bool.or_self, Bool.false_eq_true, if_false]
  show align_aux (4 + 4) _ _ = _
  rw [align_aux, if_pos e1]
  rw [align_aux, if_neg (by simp [e2]), if_pos s2]
  rw [align_aux, if_neg (by simp [e3]), if_pos s3]
  rw [align_aux, if_pos e4]
  rfl

/-- `cache_contains` agrees with `cache_get` presence. -/
theorem cache_contains_isSome (c : Cache) (k : String) :
    cache_contains c k = (cache_get c k).isSome := by
  induction c with
  | nil => rfl
  | cons kv rest ih =>
    obtain ⟨k', v⟩ := kv
    simp only [cache_contains, cache_get]
    by_cases h : k' = k
    · rw [if_pos h, if_pos h]; rfl
    · rw [if_neg h, if_neg h, ih]

/-- If every token of `ws` is either absent from the cache or gated out by
the minimum confidence, the token loop rewrites nothing. -/
theorem apply_words_id (cache : Cache) (mc : ℚ) :
    ∀ (ws : List String) (i : Nat),
      (∀ w ∈ ws, ∀ cc, cache_get cache (to_lowercase w) = some cc → cc.confidence < mc) →
      apply_words cache mc i ws = (ws, []) := by
  intro ws
  induction ws with
  | nil => intro i _; rfl
  | cons w ws ih =>
    intro i h
    have hrest := ih (i + 1) (fun w' hw' => h w' (List.mem_cons_of_mem _ hw'))
    simp only [apply_words, hrest]
    cases hcg : cache_get cache (to_lowercase w) with
    | none => simp only [hcg]
    | some cc =>
      have hlt := h w (List.mem_cons_self w ws) cc hcg
      simp only [hcg, not_le.mpr hlt, if_false]

/-- Every applied-correction record produced by the token loop comes from
a cache entry whose confidence clears the minimum. -/
theorem apply_words_applied_gated (cache : Cache) (mc : ℚ) :
    ∀ (ws : List String) (i : Nat) (a : AppliedCorrection),
      a ∈ (apply_words cache mc i ws).2 →
      ∃ cc, cache_get cache (to_lowercase a.original) = some cc ∧
        mc ≤ cc.confidence ∧ a.confidence = cc.confidence := by
  intro ws
  induction ws with
  | nil => intro i a h; simp [apply_words] at h
  | cons w ws ih =>
    intro i a h
    simp only [apply_words] at h
    cases hcg : cache_get cache (to_lowercase w) with
    | none =>
      simp only [hcg] at h
      exact ih (i + 1) a h
    | some cc =>
      simp only [hcg] at h
      by_cases hconf : mc ≤ cc.confidence
      · simp only [if_pos hconf] at h
        rcases List.mem_cons.mp h with rfl | h'
        · exact ⟨cc, hcg, hconf, rfl⟩
        · exact ih (i + 1) a h'
      · simp only [if_neg hconf] at h
        exact ih (i + 1) a h

/-! ## Claim C7 -/

/-- Claim C7 (confirmed): if the correction cache is empty, or the text
has no whitespace-delimited tokens, `apply_corrections` returns the input
text verbatim together with an empty applied list. -/
theorem apply_corrections_empty_passthrough (en : LearningEngine) (t : String)
    (h : en.corrections = [] ∨ split_whitespace t = []) :
    apply_corrections en t = (t, []) := by
  simp only [apply_corrections]
  rcases h with h | h
  · simp [h]
  · simp [h]

/-- Claim C7, witness at the empty engine and a two-token text. -/
theorem apply_corrections_empty_passthrough_witness :
    apply_corrections LearningEngine.new "hello  world" = ("hello  world", []) :=
  apply_corrections_empty_passthrough LearningEngine.new "hello  world" (Or.inl rfl)

/-! ## Claim C3 -/

/-- Claim C3, counterexample.  With an empty cache — a state in which no
cached token matches, so "no correction is applied" — the text `"a  b"`
(two spaces) is returned verbatim, not single-spaced: the claimed
normalization does not happen for every input on which no correction
applies. -/
theorem apply_corrections_empty_cache_verbatim_cex :
    apply_corrections LearningEngine.new "a  b" = ("a  b", []) ∧
      ("a  b" : String) ≠ "a b" := by
  exact ⟨rfl, by decide⟩

/-- Claim C3, amended: provided the correction cache is NON-EMPTY, any
text with at least one token, all of whose tokens are absent from the
cache or gated out by the current minimum confidence (no correction
applies), is returned with its tokens joined by exactly one space each
and an empty applied list. -/
theorem apply_corrections_normalizes_whitespace (en : LearningEngine) (t : String)
    (hc : en.corrections ≠ [])
    (hw : split_whitespace t ≠ [])
    (hg : ∀ w ∈ split_whitespace t, ∀ cc,
      cache_get en.corrections (to_lowercase w) = some cc →
        cc.confidence < en.min_confidence) :
    apply_corrections en t = (String.intercalate " " (split_whitespace t), []) := by
  have hc' : en.corrections.isEmpty = false := by
    cases hcc : en.corrections with
    | nil => exact absurd hcc hc
    | cons a l => rfl
  have hw' : (split_whitespace t).isEmpty = false := by
    cases hww : split_whitespace t with
    | nil => exact absurd hww hw
    | cons a l => rfl
  simp only [apply_corrections, hc', hw', Bool.false_eq_true, if_false,
    apply_words_id en.corrections en.min_confidence (split_whitespace t) 0 hg]

/-- Claim C3, witness for the amended theorem: a non-empty cache, the
double-spaced text `"a  b"` with no matching token, single-spaced output. -/
theorem apply_corrections_normalizes_whitespace_witness :
    apply_corrections engine_teh "a  b" = ("a b", []) := by
  have hsplit : split_whitespace "a  b" = ["a", "b"] := by decide
  have h := apply_corrections_normalizes_whitespace engine_teh "a  b"
    (by decide) (by rw [hsplit]; decide) ?_
  · rw [h, hsplit]; rfl
  · intro w hw cc hcc
    rw [hsplit] at hw
    simp only [List.mem_cons, List.not_mem_nil, or_false] at hw
    have hno : cache_get engine_teh.corrections (to_lowercase w) = none := by
      rcases hw with rfl | rfl
      · decide
      · decide
    rw [hno] at hcc
    exact absurd hcc (by simp)

/-! ## Claim C6 -/

/-- Claim C6 (confirmed): a cached correction is applied by
`apply_corrections` (first conjunct) or returned by `get_correction`
(second conjunct) only when the entry's stored confidence is at least the
engine's minimum confidence at call time; after `set_min_confidence`, a
lookup re-evaluates the stored confidence against the new (clamped)
threshold, with no reload of the cache (third conjunct); and an entry
with confidence 1/2 under a minimum of 9/10 is never applied (fourth
conjunct). -/
theorem corrections_confidence_gated :
    (∀ (en : LearningEngine) (t : String) (a : AppliedCorrection),
      a ∈ (apply_corrections en t).2 →
      ∃ cc, cache_get en.corrections (to_lowercase a.original) = some cc ∧
        en.min_confidence ≤ cc.confidence ∧ a.confidence = cc.confidence) ∧
    (∀ (en : LearningEngine) (w r : String), get_correction en w = some r →
      ∃ cc, cache_get en.corrections (to_lowercase w) = some cc ∧
        en.min_confidence ≤ cc.confidence ∧ r = cc.corrected) ∧
    (∀ (en : LearningEngine) (m : ℚ) (w : String) (cc : CachedCorrection),
      cache_get en.corrections (to_lowercase w) = some cc →
      (get_correction (set_min_confidence en m) w = some cc.corrected ↔
        clamp01 m ≤ cc.confidence)) ∧
    (∀ (en : LearningEngine) (w : String) (cc : CachedCorrection),
      cache_get en.corrections (to_lowercase w) = some cc →
      cc.confidence = 1/2 → en.min_confidence = 9/10 →
      get_correction en w = none ∧
        apply_words en.corrections en.min_confidence 0 [w] = ([w], [])) := by
  refine ⟨?_, ?_, ?_, ?_⟩
  · intro en t a h
    simp only [apply_corrections] at h
    split at h
    · simp at h
    · split at h
      · simp at h
      · exact apply_words_applied_gated en.corrections en.min_confidence
          (split_whitespace t) 0 a h
  · intro en w r h
    simp only [get_correction] at h
    cases hcg : cache_get en.corrections (to_lowercase w) with
    | none => rw [hcg] at h; exact absurd h (by simp)
    | some cc =>
      rw [hcg] at h
      by_cases hc : en.min_confidence ≤ cc.confidence
      · simp only [if_pos hc] at h
        exact ⟨cc, rfl, hc, (Option.some.inj h).symm⟩
      · simp only [if_neg hc] at h
        exact absurd h (by simp)
  · intro en m w cc hcg
    simp only [get_correction, set_min_confidence]
    rw [show ({ en with min_confidence := clamp01 m } : LearningEngine).corrections =
      en.corrections from rfl, hcg]
    by_cases hc : clamp01 m ≤ cc.confidence
    · simp [hc]
    · simp [hc]
  · intro en w cc hcg hc hm
    have hlt : cc.confidence < en.min_confidence := by rw [hc, hm]; norm_num
    refine ⟨?_, ?_⟩
    · simp only [get_correction, hcg, if_neg (not_le.mpr hlt)]
    · refine apply_words_id en.corrections en.min_confidence [w] 0 ?_
      intro w' hw' cc' hcc'
      simp only [List.mem_singleton] at hw'
      subst hw'
      rw [hcg] at hcc'
      rw [← Option.some.inj hcc']
      exact hlt

/-- Claim C6, witness: the engine `engine_low_conf` (entry `foo → bar` at
confidence 1/2, minimum 9/10) never applies the entry. -/
theorem corrections_confidence_gated_witness :
    get_correction engine_low_conf "foo" = none ∧
      apply_words engine_low_conf.corrections engine_low_conf.min_confidence 0 ["foo"] =
        (["foo"], []) :=
  corrections_confidence_gated.2.2.2 engine_low_conf "foo"
    { corrected := "bar", confidence := 1/2 } rfl rfl rfl

/-! ## Claim C10 -/

/-- Claim C10 (confirmed): `has_correction` is not confidence-gated — it
reports presence of the lowercased word in the cache regardless of the
entry's confidence (first conjunct) — so on `engine_low_conf` (entry at
confidence 1/2, minimum 9/10) `has_correction "foo"` is `true` while
`get_correction "foo"` is `none` and `apply_corrections` leaves `"foo"`
unchanged. -/
theorem has_correction_not_gated :
    (∀ (en : LearningEngine) (w : String),
      has_correction en w = (cache_get en.corrections (to_lowercase w)).isSome) ∧
    has_correction engine_low_conf "foo" = true ∧
    get_correction engine_low_conf "foo" = none ∧
    apply_corrections engine_low_conf "test foo here" = ("test foo here", []) := by
  refine ⟨fun en w => cache_contains_isSome _ _, rfl, ?_, ?_⟩
  · simp only [get_correction,
      show cache_get engine_low_conf.corrections (to_lowercase "foo") =
        some { corrected := "bar", confidence := 1/2 } from rfl]
    norm_num [engine_low_conf]
  · have happ : apply_words engine_low_conf.corrections engine_low_conf.min_confidence 0
        ["test", "foo", "here"] = (["test", "foo", "here"], []) := by
      refine apply_words_id _ _ _ _ ?_
      intro w hw cc hcc
      simp only [List.mem_cons, List.not_mem_nil, or_false] at hw
      rcases hw with rfl | rfl | rfl
      · rw [show cache_get engine_low_conf.corrections (to_lowercase "test") = none
          from rfl] at hcc
        exact Option.noConfusion hcc
      · rw [show cache_get engine_low_conf.corrections (to_lowercase "foo") =
          some { corrected := "bar", confidence := 1/2 } from rfl] at hcc
        rw [← Option.some.inj hcc]
        norm_num [engine_low_conf]
      · rw [show cache_get engine_low_conf.corrections (to_lowercase "here") = none
          from rfl] at hcc
        exact Option.noConfusion hcc
    have hie : engine_low_conf.corrections.isEmpty = false := rfl
    have h1 : split_whitespace "test foo here" = ["test", "foo", "here"] := by decide
    simp only [apply_corrections, hie, Bool.false_eq_true, if_false, h1,
      List.isEmpty_cons, happ]
    decide

/-! ## Claim C8 -/

/-- Claim C8, counterexample.  For `original = "1EH"` every alphabetic
character is uppercase, so the claimed classification demands
`match_case "the" "1EH" = "THE"`; but the code only reaches its all-caps
branch when the FIRST character is uppercase (`'1'` is not), and returns
`"the"` unchanged. -/
theorem match_case_nonupper_first_cex :
    all_alpha_upper "1EH" = true ∧
    first_char_upper "1EH" = false ∧
    match_case "the" "1EH" = "the" ∧
    match_case "the" "1EH" ≠ "THE" :=
  ⟨by decide, by decide, by decide, by decide⟩

/-- Claim C8, amended: `match_case` implements the three-way
classification with the all-caps branch additionally conditioned on the
first character being uppercase — it coincides everywhere with
`match_case_spec_amended`, and satisfies the three literal laws
`match_case "the" "TEH" = "THE"`, `match_case "the" "Teh" = "The"`,
`match_case "the" "teh" = "the"`. -/
theorem match_case_classification :
    (∀ corrected original : String,
      match_case corrected original = match_case_spec_amended corrected original) ∧
    match_case "the" "TEH" = "THE" ∧
    match_case "the" "Teh" = "The" ∧
    match_case "the" "teh" = "the" := by
  refine ⟨?_, by decide, by decide, by decide⟩
  intro corrected original
  rw [match_case.eq_def]
  cases horig : original.data with
  | nil =>
    simp [match_case_spec_amended, horig]
  | cons c rest =>
    cases hcorr : corrected.data with
    | nil =>
      cases c :: rest <;> simp [match_case_spec_amended, horig, hcorr]
    | cons c0 cs =>
      simp only [match_case_spec_amended, horig, hcorr, List.isEmpty_cons,
        Bool.or_self, Bool.false_eq_true, if_false, first_char_upper,
        rest_alpha_lower, all_alpha_upper, title_cased]
      by_cases h1 : c.isUpper
      · by_cases h2 : rest.all (fun x => !x.isAlpha || x.isLower)
        · simp [h1, h2]
        · by_cases h3 : (c :: rest).all (fun x => !x.isAlpha || x.isUpper)
          · simp [h1, h2, h3, hcorr]
          · simp [h1, h2, h3]
      · simp [h1]

/-- A pair that fails any acceptance filter is skipped: no learned
correction, no storage upsert, no cache write. -/
theorem process_pairs_skip (mc : ℚ) (o e : String) (rest : List (String × String))
    (s : Storage) (cache : Cache) (h : accepted_pair (o, e) = false) :
    process_pairs mc ((o, e) :: rest) s cache = process_pairs mc rest s cache := by
  by_cases h1 : eq_ignore_ascii_case o e = true
  · simp only [process_pairs, h1, if_true]
  · have h1' := eq_false_of_ne_true h1
    by_cases h2 : MIN_SIMILARITY ≤ jaro_winkler o e
    · by_cases h3 : MAX_LENGTH_DIFF < len_diff o e
      · simp only [process_pairs, h1', Bool.false_eq_true, if_false, if_pos h2, if_pos h3]
      · have : accepted_pair (o, e) = true := by
          simp [accepted_pair, h1', h2, not_lt.mp h3]
        rw [this] at h
        exact absurd h (by simp)
    · simp only [process_pairs, h1', Bool.false_eq_true, if_false, if_neg h2]

/-- An accepted pair whose upsert succeeds: the storage advances to `s2`,
the cache is written exactly when the freshly recomputed first-observation
confidence `confidence_formula 1` clears the threshold, and a learned
record for the pair is prepended to the remainder's result. -/
theorem process_pairs_accept (mc : ℚ) (o e : String) (rest : List (String × String))
    (s : Storage) (cache : Cache) (h : accepted_pair (o, e) = true) (s2 : Storage)
    (hsave : save_correction s (Correction.new (to_lowercase o) e CorrectionSource.UserEdit) =
      Except.ok s2) :
    process_pairs mc ((o, e) :: rest) s cache =
      match process_pairs mc rest s2
        (if mc ≤ confidence_formula 1 then
          cache_insert cache (to_lowercase o)
            { corrected := e, confidence := confidence_formula 1 }
        else cache) with
      | (s3, c3, Except.ok ls) => (s3, c3, Except.ok (mk_learned (o, e) :: ls))
      | (s3, c3, Except.error err) => (s3, c3, Except.error err) := by
  simp only [accepted_pair, Bool.and_eq_true, Bool.not_eq_true', decide_eq_true_eq] at h
  obtain ⟨⟨h1, h2⟩, h3⟩ := h
  simp only [process_pairs, h1, Bool.false_eq_true, if_false, if_pos h2,
    if_neg (not_lt.mpr h3), hsave]
  rfl

/-- An accepted pair whose upsert fails: the loop aborts with the storage
error, leaving storage and cache exactly as they were before this pair. -/
theorem process_pairs_accept_error (mc : ℚ) (o e : String) (rest : List (String × String))
    (s : Storage) (cache : Cache) (h : accepted_pair (o, e) = true) (err : StorageError)
    (hsave : save_correction s (Correction.new (to_lowercase o) e CorrectionSource.UserEdit) =
      Except.error err) :
    process_pairs mc ((o, e) :: rest) s cache = (s, cache, Except.error err) := by
  simp only [accepted_pair, Bool.and_eq_true, Bool.not_eq_true', decide_eq_true_eq] at h
  obtain ⟨⟨h1, h2⟩, h3⟩ := h
  simp only [process_pairs, h1, Bool.false_eq_true, if_false, if_pos h2,
    if_neg (not_lt.mpr h3), hsave]

/-- Rejected pairs are invisible to the whole loop: processing a pair list
is processing its acceptance-filtered sublist. -/
theorem process_pairs_filter (mc : ℚ) :
    ∀ (ps : List (String × String)) (s : Storage) (cache : Cache),
      process_pairs mc ps s cache = process_pairs mc (ps.filter accepted_pair) s cache := by
  intro ps
  induction ps with
  | nil => intro s cache; rfl
  | cons p rest ih =>
    intro s cache
    obtain ⟨o, e⟩ := p
    by_cases hacc : accepted_pair (o, e) = true
    · rw [List.filter_cons_of_pos hacc]
      cases hsave : save_correction s
          (Correction.new (to_lowercase o) e CorrectionSource.UserEdit) with
      | error err =>
        rw [process_pairs_accept_error mc o e rest s cache hacc err hsave,
          process_pairs_accept_error mc o e (rest.filter accepted_pair) s cache hacc err hsave]
      | ok s2 =>
        rw [process_pairs_accept mc o e rest s cache hacc s2 hsave,
          process_pairs_accept mc o e (rest.filter accepted_pair) s cache hacc s2 hsave, ih]
    · have hacc' := eq_false_of_ne_true hacc
      rw [process_pairs_skip mc o e rest s cache hacc',
        List.filter_cons_of_neg (by simp [hacc']), ih]

/-- When the loop succeeds, the returned list is exactly one learned
record per accepted pair, in order, carrying that pair's similarity. -/
theorem process_pairs_ok_list (mc : ℚ) :
    ∀ (ps : List (String × String)) (s : Storage) (cache : Cache) (l : List LearnedCorrection),
      (process_pairs mc ps s cache).2.2 = Except.ok l →
      l = (ps.filter accepted_pair).map mk_learned := by
  intro ps
  induction ps with
  | nil =>
    intro s cache l h
    simp only [process_pairs] at h
    simp only [List.filter_nil, List.map_nil]
    exact (Except.ok.inj h).symm
  | cons p rest ih =>
    intro s cache l h
    obtain ⟨o, e⟩ := p
    by_cases hacc : accepted_pair (o, e) = true
    · rw [List.filter_cons_of_pos hacc]
      cases hsave : save_correction s
          (Correction.new (to_lowercase o) e CorrectionSource.UserEdit) with
      | error err =>
        rw [process_pairs_accept_error mc o e rest s cache hacc err hsave] at h
        exact absurd h (by simp)
      | ok s2 =>
        rw [process_pairs_accept mc o e rest s cache hacc s2 hsave] at h
        rcases hrest : process_pairs mc rest s2
            (if mc ≤ confidence_formula 1 then
              cache_insert cache (to_lowercase o)
                { corrected := e, confidence := confidence_formula 1 }
            else cache) with ⟨s3, c3, r⟩
        rw [hrest] at h
        cases r with
        | error err2 => exact absurd h (by simp)
        | ok ls =>
          have hls : ls = (rest.filter accepted_pair).map mk_learned :=
            ih _ _ ls (by rw [hrest])
          have h' : Except.ok (mk_learned (o, e) :: ls) = Except.ok l := h
          rw [← Except.ok.inj h', hls, List.map_cons]
    · have hacc' := eq_false_of_ne_true hacc
      rw [process_pairs_skip mc o e rest s cache hacc'] at h
      rw [List.filter_cons_of_neg (by simp [hacc'])]
      exact ih s cache l h

/-- The pair `("recieve", "receive")` passes all three acceptance
filters. -/
theorem accepted_recieve : accepted_pair ("recieve", "receive") = true := by
  have h2 : MIN_SIMILARITY ≤ jaro_winkler "recieve" "receive" := by
    rw [jw_recieve_receive]; norm_num [MIN_SIMILARITY]
  simp +decide [accepted_pair, h2]

/-- Full evaluation of one `learn_from_edit` call: starting from a store
that has already observed `recieve → receive` twice, the call upserts the
pair (occurrences now 3), writes nothing to the cache (the code compares
the first-observation confidence `confidence_formula 1` against the
threshold), and reports one learned correction. -/
theorem learn_from_edit_recieve_eval :
    learn_from_edit LearningEngine.new "I recieve mail" "I receive mail" storage_two =
      ({ counts := [(("recieve", "receive"), 3)], failing := [] }, [],
        Except.ok [mk_learned ("recieve", "receive")]) := by
  have hsplit_o : split_whitespace "I recieve mail" = ["I", "recieve", "mail"] := by decide
  have hsplit_e : split_whitespace "I receive mail" = ["I", "receive", "mail"] := by decide
  have e1 : eq_ignore_ascii_case "I" "I" = true := by decide
  have e3 : eq_ignore_ascii_case "mail" "mail" = true := by decide
  have halign : align_words ["I", "recieve", "mail"] ["I", "receive", "mail"] =
      [("I", "I"), ("recieve", "receive"), ("mail", "mail")] := by
    have e2 : eq_ignore_ascii_case "recieve" "receive" = false := by decide
    have s2 : MIN_ALIGNMENT_SIMILARITY ≤ jaro_winkler "recieve" "receive" := by
      rw [jw_recieve_receive]; norm_num [MIN_ALIGNMENT_SIMILARITY]
    rw [align_words]
    simp only [List.isEmpty_cons, Bool.or_self, Bool.false_eq_true, if_false]
    show align_aux (3 + 3) _ _ = _
    rw [align_aux, if_pos e1]
    rw [align_aux, if_neg (by simp [e2]), if_pos s2]
    rw [align_aux, if_pos e3]
    rfl
  show process_pairs MIN_AUTO_APPLY_CONFIDENCE
      (align_words (split_whitespace "I recieve mail") (split_whitespace "I receive mail"))
      storage_two [] = _
  rw [hsplit_o, hsplit_e, halign]
  rw [process_pairs_skip _ "I" "I" _ _ _ (by decide)]
  rw [process_pairs_accept MIN_AUTO_APPLY_CONFIDENCE "recieve" "receive"
    [("mail", "mail")] storage_two [] accepted_recieve
    { counts := [(("recieve", "receive"), 3)], failing := [] } (by rfl)]
  rw [process_pairs_skip _ "mail" "mail" _ _ _ (by decide)]
  rw [show (if MIN_AUTO_APPLY_CONFIDENCE ≤ confidence_formula 1 then
      cache_insert [] (to_lowercase "recieve")
        { corrected := "receive", confidence := confidence_formula 1 }
    else ([] : Cache)) = ([] : Cache) from
      if_neg (by norm_num [MIN_AUTO_APPLY_CONFIDENCE, confidence_formula])]
  rfl

/-! ## Claim C5 -/

/-- Claim C5 (confirmed): `learn_from_edit` behaves exactly as if it
processed only the aligned pairs that differ case-insensitively, have
similarity at least `MIN_SIMILARITY` (0.7), and byte-length difference at
most `MAX_LENGTH_DIFF` (1) — rejected pairs cause no upsert and no cache
write (first conjunct) — and every returned `LearnedCorrection` is the
record of one such accepted pair, in order (second conjunct). -/
theorem learn_from_edit_accepts_only_filtered :
    ∀ (en : LearningEngine) (o e : String) (s : Storage),
      learn_from_edit en o e s =
        process_pairs en.min_confidence
          ((align_words (split_whitespace o) (split_whitespace e)).filter accepted_pair)
          s en.corrections ∧
      ∀ l, (learn_from_edit en o e s).2.2 = Except.ok l →
        l = ((align_words (split_whitespace o) (split_whitespace e)).filter
          accepted_pair).map mk_learned := by
  intro en o e s
  exact ⟨process_pairs_filter en.min_confidence _ s en.corrections,
    fun l h => process_pairs_ok_list en.min_confidence _ s en.corrections l h⟩

/-- Claim C5, witness: in the `recieve → receive` run the returned list
is exactly the acceptance-filtered, similarity-labelled pair list. -/
theorem learn_from_edit_accepts_only_filtered_witness :
    [mk_learned ("recieve", "receive")] =
      ((align_words (split_whitespace "I recieve mail")
        (split_whitespace "I receive mail")).filter accepted_pair).map mk_learned :=
  (learn_from_edit_accepts_only_filtered LearningEngine.new "I recieve mail"
    "I receive mail" storage_two).2 [mk_learned ("recieve", "receive")]
    (by rw [learn_from_edit_recieve_eval])

/-! ## Claim C4 -/

/-- Claim C4 (confirmed): if the persistence upsert fails for an accepted
pair, the `learn_from_edit` loop returns that storage error, processes no
further pairs, and leaves storage and cache exactly as produced by the
pairs processed before the failing one — best-effort, not atomic, with no
result list on error. -/
theorem learn_from_edit_error_best_effort (mc : ℚ) :
    ∀ (ps1 : List (String × String)) (p : String × String) (ps2 : List (String × String))
      (s : Storage) (cache : Cache) (s1 : Storage) (c1 : Cache)
      (l1 : List LearnedCorrection) (err : StorageError),
      process_pairs mc ps1 s cache = (s1, c1, Except.ok l1) →
      accepted_pair p = true →
      save_correction s1 (Correction.new (to_lowercase p.1) p.2 CorrectionSource.UserEdit) =
        Except.error err →
      process_pairs mc (ps1 ++ p :: ps2) s cache = (s1, c1, Except.error err) := by
  intro ps1
  induction ps1 with
  | nil =>
    intro p ps2 s cache s1 c1 l1 err hok hacc hsave
    obtain ⟨o, e⟩ := p
    simp only [process_pairs, Prod.mk.injEq] at hok
    obtain ⟨rfl, rfl, -⟩ := hok
    exact process_pairs_accept_error mc o e ps2 s cache hacc err hsave
  | cons q rest ih =>
    intro p ps2 s cache s1 c1 l1 err hok hacc hsave
    obtain ⟨qo, qe⟩ := q
    by_cases hq : accepted_pair (qo, qe) = true
    · cases hqsave : save_correction s
          (Correction.new (to_lowercase qo) qe CorrectionSource.UserEdit) with
      | error err2 =>
        rw [process_pairs_accept_error mc qo qe rest s cache hq err2 hqsave] at hok
        simp [Prod.ext_iff] at hok
      | ok s2 =>
        rw [process_pairs_accept mc qo qe rest s cache hq s2 hqsave] at hok
        rw [show ((qo, qe) :: rest) ++ p :: ps2 = (qo, qe) :: (rest ++ p :: ps2) from rfl,
          process_pairs_accept mc qo qe (rest ++ p :: ps2) s cache hq s2 hqsave]
        rcases hrest : process_pairs mc rest s2
            (if mc ≤ confidence_formula 1 then
              cache_insert cache (to_lowercase qo)
                { corrected := qe, confidence := confidence_formula 1 }
            else cache) with ⟨s3, c3, r⟩
        rw [hrest] at hok
        cases r with
        | error err2 => simp [Prod.ext_iff] at hok
        | ok ls =>
          have h' : (s3, c3, Except.ok (mk_learned (qo, qe) :: ls)) =
              (s1, c1, (Except.ok l1 : Except StorageError (List LearnedCorrection))) := hok
          simp only [Prod.mk.injEq] at h'
          obtain ⟨rfl, rfl, -⟩ := h'
          rw [ih p ps2 s2 _ s3 c3 ls err hrest hacc hsave]
    · have hq' := eq_false_of_ne_true hq
      rw [process_pairs_skip mc qo qe rest s cache hq'] at hok
      rw [show ((qo, qe) :: rest) ++ p :: ps2 = (qo, qe) :: (rest ++ p :: ps2) from rfl,
        process_pairs_skip mc qo qe (rest ++ p :: ps2) s cache hq']
      exact ih p ps2 s cache s1 c1 l1 err hok hacc hsave

/-- Claim C4, witness: with a store whose upsert fails on
`(recieve, receive)`, the loop aborts on that pair with the error, the
following pair `("mail", "mail")` is never processed, and the state is
unchanged. -/
theorem learn_from_edit_error_best_effort_witness :
    process_pairs MIN_AUTO_APPLY_CONFIDENCE
      ([] ++ ("recieve", "receive") :: [("mail", "mail")]) storage_failing [] =
      (storage_failing, [], Except.error StorageError.failure) :=
  learn_from_edit_error_best_effort MIN_AUTO_APPLY_CONFIDENCE []
    ("recieve", "receive") [("mail", "mail")] storage_failing [] storage_failing [] []
    StorageError.failure rfl accepted_recieve rfl

/-! ## Claim C2 -/

/-- Claim C2 (code bug): the confidence compared against the auto-apply
threshold in `learn_from_edit` is NOT the one recomputed after the
persistence upsert.  `save_correction` receives the fresh record by
immutable reference, and `update_confidence` is then called on the local
record whose `occurrences` is still 1, so the comparison always uses the
first-observation confidence.  Concretely: after a store holding
`recieve → receive` twice is upserted to occurrences 3, the post-upsert
confidence `confidence_formula 3` clears the default threshold, yet the
cache stays empty because `confidence_formula 1` is what was compared. -/
theorem learn_from_edit_confidence_ignores_occurrences :
    lookup_count (learn_from_edit LearningEngine.new "I recieve mail" "I receive mail"
        storage_two).1.counts ("recieve", "receive") = some 3 ∧
    MIN_AUTO_APPLY_CONFIDENCE ≤ confidence_formula 3 ∧
    (learn_from_edit LearningEngine.new "I recieve mail" "I receive mail"
      storage_two).2.1 = [] ∧
    confidence_formula 1 < MIN_AUTO_APPLY_CONFIDENCE := by
  refine ⟨?_, ?_, ?_, ?_⟩
  · rw [learn_from_edit_recieve_eval]
    rfl
  · norm_num [MIN_AUTO_APPLY_CONFIDENCE, confidence_formula]
  · rw [learn_from_edit_recieve_eval]
  · norm_num [MIN_AUTO_APPLY_CONFIDENCE, confidence_formula]
